import Mathlib

/-!
# Verification of the timestamp-image rendering pipeline

Shallow embedding of `render_time_series.py`. Timestamps are modelled as
integers (minutes since an arbitrary epoch, UTC): the indexer parses
`YYYYMMDDHHMM` filename prefixes at minute precision, so every instant the
program manipulates is an integral number of minutes.

The embedding follows the source line by line:
* the time index is the list of (timestamp, path) records sorted by
  timestamp (`image_df.sort_index(inplace=True)`, line 51);
* the nearest lookup is pandas `Index.get_loc(t, method="nearest")`
  (line 69), embedded from pandas' `_get_nearest_indexer`: a pad indexer
  and a backfill indexer are computed by binary search on the monotonic
  index (equivalently, on a sorted list, by counting the prefix satisfying
  the bound), the absolute distances of the two candidates are compared
  with strict `<` (the index is monotonic increasing), and the backfill
  candidate wins ties; a non-unique index makes `get_indexer` raise
  `InvalidIndexError` before any comparison, and an empty index makes the
  lookup raise;
* the sample grid is `pd.date_range(start, end, freq)` (line 57);
* the optional crop is the numpy basic slice
  `satellite_image[y0:y1, x0:x2]` (lines 71-76), with Python slice
  clamping semantics;
* the frame loop appends one composed frame per grid point to the
  `FFMpegWriter` sink, aborting on the first raised error (lines 60-91).
-/

namespace RenderTimeSeries

/-- One discovered image: the timestamp parsed from the first 12 filename
characters (`YYYYMMDDHHMM`, UTC, in minutes) and the file path. -/
structure TimestampedImage where
  ts : Int
  path : String
deriving DecidableEq, Inhabited, Repr

/-- `image_df.sort_index(inplace=True)` (line 51): the discovered records,
sorted ascending by timestamp. -/
def buildTimeIndex (discovered : List TimestampedImage) : List TimestampedImage :=
  List.insertionSort (fun a b => a.ts ≤ b.ts) discovered

instance : IsTotal TimestampedImage (fun a b => a.ts ≤ b.ts) :=
  ⟨fun a b => Int.le_total a.ts b.ts⟩

instance : IsTrans TimestampedImage (fun a b => a.ts ≤ b.ts) :=
  ⟨fun _ _ _ hab hbc => le_trans hab hbc⟩

/-! ## pandas `get_loc(t, method="nearest")` (line 69) -/

/-- `searchsorted(t, side="right")`: on a monotonic list the entries `≤ t`
form an initial segment, and the binary search returns its length, counted
here structurally. -/
def searchSortedRight (idx : List Int) (t : Int) : Nat :=
  match idx with
  | [] => 0
  | x :: xs => if x ≤ t then searchSortedRight xs t + 1 else 0

/-- `searchsorted(t, side="left")`: on a monotonic list the entries `< t`
form an initial segment, and the binary search returns its length, counted
here structurally. -/
def searchSortedLeft (idx : List Int) (t : Int) : Nat :=
  match idx with
  | [] => 0
  | x :: xs => if x < t then searchSortedLeft xs t + 1 else 0

/-- pandas `get_indexer(target, method="pad")` for a single target on a
monotonic index: position of the last entry `≤ t`, and `-1` when there is
none. -/
def padIndexer (idx : List Int) (t : Int) : Int :=
  (searchSortedRight idx t : Int) - 1

/-- pandas `get_indexer(target, method="backfill")` for a single target on
a monotonic index: position of the first entry `≥ t`, and `-1` when there
is none. -/
def backfillIndexer (idx : List Int) (t : Int) : Int :=
  if searchSortedLeft idx t = idx.length then -1 else (searchSortedLeft idx t : Int)

/-- numpy integer take `self.values[i]` with Python wraparound for a
negative position, as `_get_nearest_indexer` applies it to the possibly
`-1` pad/backfill indexers. -/
def takeAt (idx : List Int) (i : Int) : Int :=
  idx.getD (if i < 0 then (i + idx.length).toNat else i.toNat) 0

/-- pandas `_get_nearest_indexer` for a single target on a monotonic
increasing index: compare the pad and backfill candidates by absolute
distance with `operator.lt` (the index is monotonic increasing), keeping
the pad candidate when it is strictly closer or when there is no backfill
candidate. -/
def nearestIndexer (idx : List Int) (t : Int) : Int :=
  if (takeAt idx (padIndexer idx t) - t).natAbs
       < (takeAt idx (backfillIndexer idx t) - t).natAbs
     ∨ backfillIndexer idx t = -1 then
    padIndexer idx t
  else
    backfillIndexer idx t

/-- The exceptions `image_df.index.get_loc(time_stamp, method="nearest")`
can raise: `InvalidIndexError` ("Reindexing only valid with uniquely
valued Index objects") when the index has duplicate timestamps, and the
failure (`KeyError`/`IndexError`) a lookup on an empty index produces. -/
inductive LookupError where
  | nonUniqueIndex
  | emptyIndex
deriving DecidableEq, Repr

/-- `Index.get_loc(t, method="nearest")`: `get_indexer` first insists the
index is unique, the empty index has no entry to return (the lookup
raises), and otherwise the nearest indexer is returned, with the `-1`
sentinel (never produced on a non-empty index) mapped to the raising
branch `if loc == -1: raise KeyError`. -/
def get_loc_nearest (idx : List Int) (t : Int) : Except LookupError Nat :=
  if idx.Nodup then
    if idx.isEmpty then .error .emptyIndex
    else
      let i := nearestIndexer idx t
      if i < 0 then .error .emptyIndex else .ok i.toNat
  else .error .nonUniqueIndex

instance {ε α : Type _} [DecidableEq ε] [DecidableEq α] : DecidableEq (Except ε α) :=
  fun a b =>
    match a, b with
    | .error x, .error y =>
      if h : x = y then isTrue (by rw [h])
      else isFalse (fun hc => by cases hc; exact h rfl)
    | .ok x, .ok y =>
      if h : x = y then isTrue (by rw [h])
      else isFalse (fun hc => by cases hc; exact h rfl)
    | .error _, .ok _ => isFalse (fun hc => by cases hc)
    | .ok _, .error _ => isFalse (fun hc => by cases hc)

/-! ## `pd.date_range(start, end, freq)` (line 57) -/

/-- `pd.date_range(start=start_time, end=end_time, freq=sample_freq)` for
a positive frequency: the instants `start, start+freq, ...` not exceeding
`stop`; empty when `start > stop`. -/
def dateRange (start stop freq : Int) : List Int :=
  if 0 < freq ∧ start ≤ stop then
    (List.range (((stop - start) / freq).toNat + 1)).map
      (fun (i : Nat) => start + freq * (i : Int))
  else []

/-! ## numpy basic slicing and the crop (lines 71-76) -/

/-- Clamp one Python slice bound against a sequence of length `n`:
a negative bound counts from the end (then is clamped below by `0`), a
non-negative bound is clamped above by `n`. -/
def sliceBound (n : Nat) (i : Int) : Nat :=
  if i < 0 then (max (i + n) 0).toNat else min i.toNat n

/-- Python/numpy basic slice `xs[l:u]` (step 1): never raises, clamps both
bounds. -/
def pySlice (l u : Int) (xs : List α) : List α :=
  (xs.take (sliceBound xs.length u)).drop (sliceBound xs.length l)

/-- `satellite_image[img_bounds[1]:img_bounds[3], img_bounds[0]:img_bounds[2]]`
with `img_bounds = (x0, y0, x1, y1)`: rows `y0:y1`, then columns `x0:x1`
of each kept row. -/
def cropRaster (b : Int × Int × Int × Int) (img : List (List α)) : List (List α) :=
  (pySlice b.2.1 b.2.2.2 img).map (fun row => pySlice b.1 b.2.2.1 row)

/-! ## the frame loop (lines 60-91) -/

/-- One composed output frame: the (possibly cropped) raster shown on
`img_axes` and the grid timestamp rendered as the text overlay. -/
structure Frame where
  image : List (List Nat)
  label : Int
deriving DecidableEq, Inhabited, Repr

/-- One iteration of the loop body: nearest lookup on the index (line 69),
`plt.imread` of the resolved path (line 70, modelled by the `imread`
parameter), the optional crop (lines 71-76), and the timestamp text
(lines 81-89). A raised lookup error propagates. -/
def composeFrame (imread : String → List (List Nat))
    (bounds : Option (Int × Int × Int × Int))
    (idx : List TimestampedImage) (t : Int) : Except LookupError Frame :=
  match get_loc_nearest (idx.map TimestampedImage.ts) t with
  | .error e => .error e
  | .ok i =>
      let raster := imread (idx.getD i default).path
      let cropped := match bounds with
        | some b => cropRaster b raster
        | none => raster
      .ok { image := cropped, label := t }

/-- The whole `for index, time_stamp in enumerate(time_range)` loop: one
`grab_frame` per grid point, in grid order; the first raised error aborts
the loop, keeping the frames already written to the sink. Returns the
emitted frame sequence and the aborting error, if any. -/
def runPipeline (imread : String → List (List Nat))
    (bounds : Option (Int × Int × Int × Int))
    (idx : List TimestampedImage) : List Int → List Frame × Option LookupError
  | [] => ([], none)
  | t :: ts =>
    match composeFrame imread bounds idx t with
    | .error e => ([], some e)
    | .ok f =>
      let rest := runPipeline imread bounds idx ts
      (f :: rest.1, rest.2)

/-! ## Helper lemmas about sorted lists and the searchsorted counts -/

theorem getD_mem_of_lt {α : Type _} (l : List α) (d : α) (n : Nat) (h : n < l.length) :
    l.getD n d ∈ l := by
  rw [List.getD_eq_getElem l d h]
  exact List.getElem_mem h

theorem sorted_lt_getD : ∀ (idx : List Int), List.Sorted (· < ·) idx →
    ∀ i j : Nat, i < j → j < idx.length → idx.getD i 0 < idx.getD j 0 := by
  intro idx
  induction idx with
  | nil => intro _ i j _ hj; simp at hj
  | cons a l ih =>
    intro hs i j hij hj
    rw [List.sorted_cons] at hs
    cases j with
    | zero => omega
    | succ m =>
      have hm : m < l.length := by
        simp only [List.length_cons] at hj; omega
      cases i with
      | zero =>
        simp only [List.getD_cons_zero, List.getD_cons_succ]
        exact hs.1 _ (getD_mem_of_lt l 0 m hm)
      | succ k =>
        simp only [List.getD_cons_succ]
        exact ih hs.2 k m (by omega) hm

theorem sorted_le_getD (idx : List Int) (hs : List.Sorted (· < ·) idx)
    (i j : Nat) (hij : i ≤ j) (hj : j < idx.length) :
    idx.getD i 0 ≤ idx.getD j 0 := by
  rcases Nat.lt_or_ge i j with h | h
  · exact le_of_lt (sorted_lt_getD idx hs i j h hj)
  · have hij2 : i = j := by omega
    rw [hij2]

theorem sorted_lt_nodup (idx : List Int) (hs : List.Sorted (· < ·) idx) :
    idx.Nodup :=
  List.Pairwise.imp (fun h => ne_of_lt h) hs

theorem searchSortedRight_le (idx : List Int) (t : Int) :
    searchSortedRight idx t ≤ idx.length := by
  induction idx with
  | nil => simp [searchSortedRight]
  | cons a l ih =>
    by_cases ha : a ≤ t
    · simp only [searchSortedRight, if_pos ha, List.length_cons]
      omega
    · simp only [searchSortedRight, if_neg ha, List.length_cons]
      omega

theorem searchSortedLeft_le (idx : List Int) (t : Int) :
    searchSortedLeft idx t ≤ idx.length := by
  induction idx with
  | nil => simp [searchSortedLeft]
  | cons a l ih =>
    by_cases ha : a < t
    · simp only [searchSortedLeft, if_pos ha, List.length_cons]
      omega
    · simp only [searchSortedLeft, if_neg ha, List.length_cons]
      omega

theorem searchSortedLeft_le_right (idx : List Int) (t : Int) :
    searchSortedLeft idx t ≤ searchSortedRight idx t := by
  induction idx with
  | nil => simp [searchSortedLeft, searchSortedRight]
  | cons a l ih =>
    by_cases ha : a < t
    · have ha2 : a ≤ t := le_of_lt ha
      simp only [searchSortedLeft, searchSortedRight, if_pos ha, if_pos ha2]
      omega
    · simp only [searchSortedLeft, if_neg ha]
      omega

theorem searchSortedRight_spec (t : Int) : ∀ (idx : List Int),
    List.Sorted (· ≤ ·) idx →
    ∀ j : Nat, j < idx.length →
      (idx.getD j 0 ≤ t ↔ j < searchSortedRight idx t) := by
  intro idx
  induction idx with
  | nil => intro _ j hj; simp at hj
  | cons a l ih =>
    intro hs j hj
    rw [List.sorted_cons] at hs
    by_cases ha : a ≤ t
    · cases j with
      | zero =>
        simp only [List.getD_cons_zero, searchSortedRight, if_pos ha]
        omega
      | succ m =>
        have hm : m < l.length := by
          simp only [List.length_cons] at hj; omega
        have h2 := ih hs.2 m hm
        simp only [List.getD_cons_succ, searchSortedRight, if_pos ha]
        omega
    · cases j with
      | zero =>
        simp only [List.getD_cons_zero, searchSortedRight, if_neg ha]
        omega
      | succ m =>
        have hm : m < l.length := by
          simp only [List.length_cons] at hj; omega
        have hmem := hs.1 _ (getD_mem_of_lt l 0 m hm)
        simp only [List.getD_cons_succ, searchSortedRight, if_neg ha]
        omega

theorem searchSortedLeft_spec (t : Int) : ∀ (idx : List Int),
    List.Sorted (· ≤ ·) idx →
    ∀ j : Nat, j < idx.length →
      (idx.getD j 0 < t ↔ j < searchSortedLeft idx t) := by
  intro idx
  induction idx with
  | nil => intro _ j hj; simp at hj
  | cons a l ih =>
    intro hs j hj
    rw [List.sorted_cons] at hs
    by_cases ha : a < t
    · cases j with
      | zero =>
        simp only [List.getD_cons_zero, searchSortedLeft, if_pos ha]
        omega
      | succ m =>
        have hm : m < l.length := by
          simp only [List.length_cons] at hj; omega
        have h2 := ih hs.2 m hm
        simp only [List.getD_cons_succ, searchSortedLeft, if_pos ha]
        omega
    · cases j with
      | zero =>
        simp only [List.getD_cons_zero, searchSortedLeft, if_neg ha]
        omega
      | succ m =>
        have hm : m < l.length := by
          simp only [List.length_cons] at hj; omega
        have hmem := hs.1 _ (getD_mem_of_lt l 0 m hm)
        simp only [List.getD_cons_succ, searchSortedLeft, if_neg ha]
        omega

theorem searchSortedRight_le_left_succ (idx : List Int) (t : Int)
    (hs : List.Sorted (· < ·) idx) :
    searchSortedRight idx t ≤ searchSortedLeft idx t + 1 := by
  by_contra hc
  push_neg at hc
  have hsle : List.Sorted (· ≤ ·) idx := List.Pairwise.imp le_of_lt hs
  have hlen := searchSortedRight_le idx t
  have hpa := (searchSortedRight_spec t idx hsle (searchSortedLeft idx t)
    (by omega)).mpr (by omega)
  have hpb := (searchSortedRight_spec t idx hsle (searchSortedLeft idx t + 1)
    (by omega)).mpr (by omega)
  have hqa := searchSortedLeft_spec t idx hsle (searchSortedLeft idx t) (by omega)
  have hqb := searchSortedLeft_spec t idx hsle (searchSortedLeft idx t + 1) (by omega)
  have hstrict := sorted_lt_getD idx hs (searchSortedLeft idx t)
    (searchSortedLeft idx t + 1) (by omega) (by omega)
  omega

theorem takeAt_natCast (idx : List Int) (i : Nat) :
    takeAt idx (i : Int) = idx.getD i 0 := by
  simp only [takeAt, if_neg (show ¬ ((i : Int) < 0) by omega), Int.toNat_natCast]

theorem takeAt_neg_one (idx : List Int) (hne : idx ≠ []) :
    takeAt idx (-1) = idx.getD (idx.length - 1) 0 := by
  have hn : 0 < idx.length := List.length_pos.mpr hne
  simp only [takeAt, if_pos (show (-1 : Int) < 0 by omega)]
  congr 1
  omega

theorem get_loc_nearest_eq_ok (idx : List Int) (t : Int)
    (hs : List.Sorted (· < ·) idx) (hne : idx ≠ []) {i : Nat}
    (h : nearestIndexer idx t = (i : Int)) :
    get_loc_nearest idx t = .ok i := by
  have hnd : idx.Nodup := sorted_lt_nodup idx hs
  have hemp : idx.isEmpty = false := by
    cases idx with
    | nil => exact absurd rfl hne
    | cons a l => rfl
  unfold get_loc_nearest
  rw [if_pos hnd, hemp]
  simp only [Bool.false_eq_true, if_false, h]
  rw [if_neg (show ¬ ((i : Int) < 0) by omega), Int.toNat_natCast]

/-- Full characterization of pandas' nearest selection on a strictly
sorted non-empty index: a valid position is always produced, it minimizes
the absolute time distance over the whole index, a target before the first
entry selects position `0`, and a target after the last entry selects the
last position. -/
theorem nearestIndexer_spec (idx : List Int) (t : Int)
    (hs : List.Sorted (· < ·) idx) (hne : idx ≠ []) :
    ∃ i : Nat, nearestIndexer idx t = (i : Int) ∧ i < idx.length ∧
      (∀ j : Nat, j < idx.length →
        (idx.getD i 0 - t).natAbs ≤ (idx.getD j 0 - t).natAbs) ∧
      (t < idx.getD 0 0 → i = 0) ∧
      (idx.getD (idx.length - 1) 0 < t → i = idx.length - 1) := by
  have hsle : List.Sorted (· ≤ ·) idx := List.Pairwise.imp le_of_lt hs
  have hn : 0 < idx.length := List.length_pos.mpr hne
  have hk1n := searchSortedRight_le idx t
  have hk2n := searchSortedLeft_le idx t
  have hk21 := searchSortedLeft_le_right idx t
  have hk12 := searchSortedRight_le_left_succ idx t hs
  have spec1 := searchSortedRight_spec t idx hsle
  have spec2 := searchSortedLeft_spec t idx hsle
  rcases Nat.eq_zero_or_pos (searchSortedRight idx t) with hA | hk1pos
  · -- all entries are strictly after `t`: the backfill candidate (the
    -- first entry) is selected
    have hk2z : searchSortedLeft idx t = 0 := by omega
    have hri : backfillIndexer idx t = ((0 : Nat) : Int) := by
      rw [backfillIndexer, if_neg (show ¬ searchSortedLeft idx t = idx.length by omega),
        hk2z]
    have hli : padIndexer idx t = -1 := by
      simp only [padIndexer, hA]
      omega
    have hlt : ∀ j : Nat, j < idx.length → t < idx.getD j 0 := by
      intro j hj
      have := spec1 j hj
      omega
    have h0n : idx.getD 0 0 ≤ idx.getD (idx.length - 1) 0 :=
      sorted_le_getD idx hs 0 (idx.length - 1) (by omega) (by omega)
    have hL := hlt (idx.length - 1) (by omega)
    have hR := hlt 0 hn
    refine ⟨0, ?_, hn, ?_, fun _ => rfl, ?_⟩
    · unfold nearestIndexer
      rw [hli, hri, takeAt_neg_one idx hne, takeAt_natCast]
      rw [if_neg (by omega)]
    · intro j hj
      have h1 := hlt j hj
      have h3 := sorted_le_getD idx hs 0 j (by omega) hj
      omega
    · intro hcontra
      omega
  · rcases Nat.lt_or_ge (searchSortedLeft idx t) idx.length with hk2lt | hk2ge
    · by_cases hmem : idx.getD (searchSortedLeft idx t) 0 = t
      · -- the target is itself an index entry: distance zero on both sides
        have hk2k1 : searchSortedLeft idx t < searchSortedRight idx t :=
          (spec1 (searchSortedLeft idx t) (by omega)).mp (le_of_eq hmem)
        have hri : backfillIndexer idx t = ((searchSortedLeft idx t : Nat) : Int) := by
          rw [backfillIndexer, if_neg (show ¬ searchSortedLeft idx t = idx.length by omega)]
        have hli : padIndexer idx t = ((searchSortedLeft idx t : Nat) : Int) := by
          simp only [padIndexer]
          omega
        refine ⟨searchSortedLeft idx t, ?_, by omega, ?_, ?_, ?_⟩
        · unfold nearestIndexer
          rw [hli, hri, takeAt_natCast, hmem]
          rw [if_neg (by omega)]
        · intro j hj
          rw [hmem]
          omega
        · intro hcontra
          have := (spec1 0 hn).mpr (by omega)
          omega
        · intro hcontra
          have := (spec2 (idx.length - 1) (by omega)).mp hcontra
          omega
      · -- the target falls strictly between the pad entry and the
        -- backfill entry: the strictly closer one wins, the backfill
        -- entry on a tie
        have hgt : t < idx.getD (searchSortedLeft idx t) 0 := by
          have h1 := spec2 (searchSortedLeft idx t) (by omega)
          omega
        have hk1le : searchSortedRight idx t ≤ searchSortedLeft idx t := by
          by_contra hc
          push_neg at hc
          have := (spec1 (searchSortedLeft idx t) (by omega)).mpr hc
          omega
        have hk2pos : 0 < searchSortedLeft idx t := by omega
        have hlt_prev : idx.getD (searchSortedLeft idx t - 1) 0 < t := by
          have := (spec2 (searchSortedLeft idx t - 1) (by omega)).mpr (by omega)
          omega
        have hli : padIndexer idx t = ((searchSortedLeft idx t - 1 : Nat) : Int) := by
          simp only [padIndexer]
          omega
        have hri : backfillIndexer idx t = ((searchSortedLeft idx t : Nat) : Int) := by
          rw [backfillIndexer, if_neg (show ¬ searchSortedLeft idx t = idx.length by omega)]
        by_cases hcmp : (idx.getD (searchSortedLeft idx t - 1) 0 - t).natAbs
            < (idx.getD (searchSortedLeft idx t) 0 - t).natAbs
        · refine ⟨searchSortedLeft idx t - 1, ?_, by omega, ?_, ?_, ?_⟩
          · unfold nearestIndexer
            rw [hli, hri, takeAt_natCast, takeAt_natCast]
            rw [if_pos (Or.inl hcmp)]
          · intro j hj
            rcases Nat.lt_or_ge j (searchSortedLeft idx t) with hjlt | hjge
            · have h3 := sorted_le_getD idx hs j (searchSortedLeft idx t - 1)
                (by omega) (by omega)
              have h4 := (spec2 j hj).mpr hjlt
              omega
            · have h3 := sorted_le_getD idx hs (searchSortedLeft idx t) j hjge hj
              omega
          · intro hcontra
            have := (spec1 0 hn).mpr (by omega)
            omega
          · intro hcontra
            have := (spec2 (idx.length - 1) (by omega)).mp hcontra
            omega
        · refine ⟨searchSortedLeft idx t, ?_, by omega, ?_, ?_, ?_⟩
          · unfold nearestIndexer
            rw [hli, hri, takeAt_natCast, takeAt_natCast]
            rw [if_neg (by omega)]
          · intro j hj
            rcases Nat.lt_or_ge j (searchSortedLeft idx t) with hjlt | hjge
            · have h3 := sorted_le_getD idx hs j (searchSortedLeft idx t - 1)
                (by omega) (by omega)
              have h4 := (spec2 j hj).mpr hjlt
              omega
            · have h3 := sorted_le_getD idx hs (searchSortedLeft idx t) j hjge hj
              omega
          · intro hcontra
            have := (spec1 0 hn).mpr (by omega)
            omega
          · intro hcontra
            have := (spec2 (idx.length - 1) (by omega)).mp hcontra
            omega
    · -- all entries are strictly before `t`: there is no backfill
      -- candidate and the pad candidate (the last entry) is selected
      have hk2n2 : searchSortedLeft idx t = idx.length := by omega
      have hk1n2 : searchSortedRight idx t = idx.length := by omega
      have hri : backfillIndexer idx t = -1 := by
        rw [backfillIndexer, if_pos hk2n2]
      have hli : padIndexer idx t = ((idx.length - 1 : Nat) : Int) := by
        simp only [padIndexer, hk1n2]
        omega
      have hlt : ∀ j : Nat, j < idx.length → idx.getD j 0 < t := by
        intro j hj
        exact (spec2 j hj).mpr (by omega)
      refine ⟨idx.length - 1, ?_, by omega, ?_, ?_, fun _ => rfl⟩
      · unfold nearestIndexer
        rw [hli, hri]
        rw [if_pos (Or.inr rfl)]
      · intro j hj
        have h1 := hlt j hj
        have h2 := hlt (idx.length - 1) (by omega)
        have h3 := sorted_le_getD idx hs j (idx.length - 1) (by omega) (by omega)
        omega
      · intro hcontra
        have := hlt 0 hn
        omega

/-! ## Helper lemmas about the sample grid -/

theorem dateRange_pos (start stop freq : Int) (hf : 0 < freq) (hle : start ≤ stop) :
    dateRange start stop freq =
      (List.range (((stop - start) / freq).toNat + 1)).map
        (fun (i : Nat) => start + freq * (i : Int)) := by
  rw [dateRange, if_pos ⟨hf, hle⟩]

theorem dateRange_length (start stop freq : Int) (hf : 0 < freq) (hle : start ≤ stop) :
    (dateRange start stop freq).length = ((stop - start) / freq).toNat + 1 := by
  rw [dateRange_pos start stop freq hf hle]
  simp

theorem dateRange_getD (start stop freq : Int) (hf : 0 < freq) (hle : start ≤ stop)
    (k : Nat) (hk : k < ((stop - start) / freq).toNat + 1) :
    (dateRange start stop freq).getD k 0 = start + freq * (k : Int) := by
  rw [dateRange_pos start stop freq hf hle]
  rw [List.getD_eq_getElem _ _ (by simpa using hk)]
  simp

theorem dateRange_sorted (start stop freq : Int) (hf : 0 < freq) :
    List.Sorted (· < ·) (dateRange start stop freq) := by
  rw [dateRange]
  split
  · apply List.Pairwise.map
    · intro a b hab
      have hab2 : (a : Int) < (b : Int) := by exact_mod_cast hab
      have := mul_lt_mul_of_pos_left hab2 hf
      omega
    · exact List.pairwise_lt_range _
  · exact List.sorted_nil

theorem dateRange_headD (start stop freq : Int) (hf : 0 < freq) (hle : start ≤ stop) :
    (dateRange start stop freq).headD 0 = start := by
  rw [dateRange_pos start stop freq hf hle, List.range_succ_eq_map]
  simp

theorem dateRange_last_le (start stop freq : Int) (hf : 0 < freq) (hle : start ≤ stop) :
    (dateRange start stop freq).getD ((dateRange start stop freq).length - 1) 0 ≤ stop := by
  have hq : 0 ≤ (stop - start) / freq := Int.ediv_nonneg (by omega) (by omega)
  rw [dateRange_length start stop freq hf hle, Nat.add_sub_cancel]
  rw [dateRange_getD start stop freq hf hle (((stop - start) / freq).toNat) (by omega)]
  have hcast : ((((stop - start) / freq).toNat : Nat) : Int) = (stop - start) / freq :=
    Int.toNat_of_nonneg hq
  rw [hcast]
  have hdm := Int.ediv_add_emod (stop - start) freq
  have hmod := Int.emod_nonneg (stop - start) (by omega : freq ≠ 0)
  omega

theorem dateRange_end_mem_iff (start stop freq : Int) (hf : 0 < freq) (hle : start ≤ stop) :
    stop ∈ dateRange start stop freq ↔ freq ∣ (stop - start) := by
  rw [dateRange_pos start stop freq hf hle]
  simp only [List.mem_map, List.mem_range]
  constructor
  · rintro ⟨i, _, hieq⟩
    exact ⟨(i : Int), by omega⟩
  · rintro ⟨c, hc⟩
    have hc0 : 0 ≤ c := by
      by_contra hcneg
      push_neg at hcneg
      have := mul_neg_of_pos_of_neg hf hcneg
      omega
    have hq : (stop - start) / freq = c := by
      rw [hc]
      exact Int.mul_ediv_cancel_left c (by omega)
    refine ⟨((stop - start) / freq).toNat, by omega, ?_⟩
    rw [hq, Int.toNat_of_nonneg hc0]
    omega

theorem dateRange_self (start freq : Int) (hf : 0 < freq) :
    dateRange start start freq = [start] := by
  rw [dateRange_pos start start freq hf (le_refl start)]
  simp [Int.sub_self, Int.zero_ediv, List.range_succ]

/-! ## Helper lemmas about numpy slicing -/

theorem sliceBound_of_nonneg_le (n : Nat) (i : Int) (h0 : 0 ≤ i) (hn : i ≤ (n : Int)) :
    sliceBound n i = i.toNat := by
  rw [sliceBound, if_neg (show ¬ i < 0 by omega)]
  omega

theorem sliceBound_of_nonneg (n : Nat) (i : Int) (h0 : 0 ≤ i) :
    sliceBound n i = min i.toNat n := by
  rw [sliceBound, if_neg (show ¬ i < 0 by omega)]

theorem pySlice_length_clamped (l u : Int) (xs : List α) (h0 : 0 ≤ l) (hlu : l ≤ u) :
    (pySlice l u xs).length = min u.toNat xs.length - l.toNat := by
  rw [pySlice, sliceBound_of_nonneg xs.length u (by omega),
      sliceBound_of_nonneg xs.length l h0]
  rw [List.length_drop, List.length_take]
  omega

theorem pySlice_length (l u : Int) (xs : List α) (h0 : 0 ≤ l) (hlu : l ≤ u)
    (hu : u ≤ (xs.length : Int)) :
    (pySlice l u xs).length = (u - l).toNat := by
  rw [pySlice_length_clamped l u xs h0 hlu]
  omega

theorem pySlice_subset (l u : Int) (xs : List α) :
    ∀ x ∈ pySlice l u xs, x ∈ xs := by
  intro x hx
  rw [pySlice] at hx
  exact List.mem_of_mem_take (List.mem_of_mem_drop hx)

theorem pySlice_getD (l u : Int) (xs : List α) (d : α) (h0 : 0 ≤ l) (hlu : l ≤ u)
    (hu : u ≤ (xs.length : Int)) (k : Nat) (hk : k < (u - l).toNat) :
    (pySlice l u xs).getD k d = xs.getD (l.toNat + k) d := by
  rw [pySlice, sliceBound_of_nonneg_le xs.length u (by omega) hu,
      sliceBound_of_nonneg_le xs.length l h0 (by omega)]
  have hkl : k < ((xs.take u.toNat).drop l.toNat).length := by
    rw [List.length_drop, List.length_take]
    omega
  rw [List.getD_eq_getElem _ _ hkl,
      List.getD_eq_getElem _ _ (show l.toNat + k < xs.length by omega)]
  simp only [List.getElem_drop, List.getElem_take]

/-! ## Helper lemmas about the frame loop -/

theorem composeFrame_of_ok (imread : String → List (List Nat))
    (bounds : Option (Int × Int × Int × Int)) (idx : List TimestampedImage)
    (t : Int) (i : Nat)
    (h : get_loc_nearest (idx.map TimestampedImage.ts) t = .ok i) :
    composeFrame imread bounds idx t =
      .ok { image := match bounds with
              | some b => cropRaster b (imread (idx.getD i default).path)
              | none => imread (idx.getD i default).path,
            label := t } := by
  rw [composeFrame, h]

theorem composeFrame_of_error (imread : String → List (List Nat))
    (bounds : Option (Int × Int × Int × Int)) (idx : List TimestampedImage)
    (t : Int) (e : LookupError)
    (h : get_loc_nearest (idx.map TimestampedImage.ts) t = .error e) :
    composeFrame imread bounds idx t = .error e := by
  rw [composeFrame, h]

theorem get_loc_nearest_isOk (idx : List Int) (t : Int)
    (hs : List.Sorted (· < ·) idx) (hne : idx ≠ []) :
    ∃ i : Nat, get_loc_nearest idx t = .ok i ∧ i < idx.length := by
  obtain ⟨i, h1, h2, _⟩ := nearestIndexer_spec idx t hs hne
  exact ⟨i, get_loc_nearest_eq_ok idx t hs hne h1, h2⟩

theorem runPipeline_spec (imread : String → List (List Nat))
    (bounds : Option (Int × Int × Int × Int)) (idx : List TimestampedImage)
    (hs : List.Sorted (· < ·) (idx.map TimestampedImage.ts)) (hne : idx ≠ []) :
    ∀ grid : List Int,
      (runPipeline imread bounds idx grid).2 = none ∧
      (runPipeline imread bounds idx grid).1.length = grid.length ∧
      ∀ k : Nat, k < grid.length →
        ((runPipeline imread bounds idx grid).1.getD k default).label =
          grid.getD k 0 := by
  have hmne : idx.map TimestampedImage.ts ≠ [] := by
    cases idx with
    | nil => exact absurd rfl hne
    | cons a l => simp
  intro grid
  induction grid with
  | nil => refine ⟨rfl, rfl, ?_⟩; intro k hk; simp at hk
  | cons t ts ih =>
    obtain ⟨i, hok, _⟩ := get_loc_nearest_isOk _ t hs hmne
    have hcf := composeFrame_of_ok imread bounds idx t i hok
    obtain ⟨ih1, ih2, ih3⟩ := ih
    refine ⟨?_, ?_, ?_⟩
    · simp only [runPipeline, hcf]
      exact ih1
    · simp only [runPipeline, hcf, List.length_cons]
      omega
    · intro k hk
      cases k with
      | zero =>
        simp only [runPipeline, hcf, List.getD_cons_zero]
      | succ m =>
        simp only [runPipeline, hcf, List.getD_cons_succ]
        exact ih3 m (by simp only [List.length_cons] at hk; omega)

theorem runPipeline_error_of_bounds_free (imread : String → List (List Nat))
    (b : Int × Int × Int × Int) (idx : List TimestampedImage) :
    ∀ grid : List Int,
      (runPipeline imread (some b) idx grid).2 =
        (runPipeline imread none idx grid).2 := by
  intro grid
  induction grid with
  | nil => rfl
  | cons t ts ih =>
    cases hg : get_loc_nearest (idx.map TimestampedImage.ts) t with
    | error e =>
      have h1 := composeFrame_of_error imread (some b) idx t e hg
      have h2 := composeFrame_of_error imread none idx t e hg
      simp only [runPipeline, h1, h2]
    | ok i =>
      have h1 := composeFrame_of_ok imread (some b) idx t i hg
      have h2 := composeFrame_of_ok imread none idx t i hg
      simp only [runPipeline, h1, h2]
      exact ih

/-! ## Claims -/

/-- C1, counterexample: with the index `{00:00 -> A (position 0),
00:10 -> B (position 1)}` (timestamps in minutes) the grid point `00:05`
is an exact tie, and the lookup selects position `1` (`B`, the later
entry), not position `0` (`A`) as the claim states. -/
theorem tie_break_counterexample :
    get_loc_nearest [0, 10] 5 = .ok 1 ∧ ¬ get_loc_nearest [0, 10] 5 = .ok 0 := by
  decide

/-- C1, amended: whenever a grid point `t` lies strictly between two
consecutive index entries at exactly equal distance from both, the lookup
selects the LATER (higher-timestamp) entry; in particular `00:05` against
`{00:00 -> A, 00:10 -> B}` selects `B`. -/
theorem tie_break_selects_later_entry (idx : List Int) (t : Int) (i : Nat)
    (hs : List.Sorted (· < ·) idx) (hi : i + 1 < idx.length)
    (hl : idx.getD i 0 < t) (hr : t < idx.getD (i + 1) 0)
    (htie : t - idx.getD i 0 = idx.getD (i + 1) 0 - t) :
    get_loc_nearest idx t = .ok (i + 1) := by
  have hsle : List.Sorted (· ≤ ·) idx := List.Pairwise.imp le_of_lt hs
  have hne : idx ≠ [] := by
    intro h
    rw [h] at hi
    simp at hi
  have spec1 := searchSortedRight_spec t idx hsle
  have spec2 := searchSortedLeft_spec t idx hsle
  have hk2a : i < searchSortedLeft idx t := (spec2 i (by omega)).mp hl
  have hk2b : ¬ (i + 1 < searchSortedLeft idx t) := by
    intro hc
    have := (spec2 (i + 1) (by omega)).mpr hc
    omega
  have hk2len := searchSortedLeft_le idx t
  have hk2 : searchSortedLeft idx t = i + 1 := by omega
  have hk1a : i < searchSortedRight idx t := (spec1 i (by omega)).mp (by omega)
  have hk1b : ¬ (i + 1 < searchSortedRight idx t) := by
    intro hc
    have := (spec1 (i + 1) (by omega)).mpr hc
    omega
  have hk1 : searchSortedRight idx t = i + 1 := by omega
  have hli : padIndexer idx t = ((i : Nat) : Int) := by
    simp only [padIndexer, hk1]
    omega
  have hri : backfillIndexer idx t = ((i + 1 : Nat) : Int) := by
    rw [backfillIndexer, if_neg (show ¬ searchSortedLeft idx t = idx.length by omega), hk2]
  have hnear : nearestIndexer idx t = ((i + 1 : Nat) : Int) := by
    unfold nearestIndexer
    rw [hli, hri, takeAt_natCast, takeAt_natCast]
    rw [if_neg (by omega)]
  exact get_loc_nearest_eq_ok idx t hs hne hnear

/-- C1, witness for the amended theorem at the spec's scenario. -/
theorem tie_break_selects_later_entry_witness :
    get_loc_nearest [0, 10] 5 = .ok (0 + 1) :=
  tie_break_selects_later_entry [0, 10] 5 0 (by decide) (by decide) (by decide)
    (by decide) (by decide)

/-- C2: on a strictly sorted non-empty index the nearest lookup succeeds
and returns a position minimizing the absolute time distance over all
entries; a target before the first entry selects position `0`, a target
after the last entry selects the last position. -/
theorem nearest_lookup_minimizes (idx : List Int) (t : Int)
    (hs : List.Sorted (· < ·) idx) (hne : idx ≠ []) :
    ∃ i : Nat, get_loc_nearest idx t = .ok i ∧ i < idx.length ∧
      (∀ j : Nat, j < idx.length →
        (idx.getD i 0 - t).natAbs ≤ (idx.getD j 0 - t).natAbs) ∧
      (t < idx.getD 0 0 → i = 0) ∧
      (idx.getD (idx.length - 1) 0 < t → i = idx.length - 1) := by
  obtain ⟨i, h1, h2, h3, h4, h5⟩ := nearestIndexer_spec idx t hs hne
  exact ⟨i, get_loc_nearest_eq_ok idx t hs hne h1, h2, h3, h4, h5⟩

/-- C2, witness: a target after the last entry of `[0, 10]`. -/
theorem nearest_lookup_minimizes_witness :
    ∃ i : Nat, get_loc_nearest [0, 10] 25 = .ok i ∧ i < ([0, 10] : List Int).length ∧
      (∀ j : Nat, j < ([0, 10] : List Int).length →
        (([0, 10] : List Int).getD i 0 - 25).natAbs ≤
          (([0, 10] : List Int).getD j 0 - 25).natAbs) ∧
      (25 < ([0, 10] : List Int).getD 0 0 → i = 0) ∧
      (([0, 10] : List Int).getD (([0, 10] : List Int).length - 1) 0 < 25 →
        i = ([0, 10] : List Int).length - 1) :=
  nearest_lookup_minimizes [0, 10] 25 (by decide) (by decide)

/-- C3, counterexample: the crop `(0, 0, 4, 4)` exceeds a 2x2 raster, yet
compositing does not fail: the slice is silently clamped to the whole
raster and the run emits the frame and finishes without error. -/
theorem crop_out_of_bounds_counterexample :
    cropRaster (0, 0, 4, 4) [[1, 2], [3, 4]] = ([[1, 2], [3, 4]] : List (List Nat)) ∧
    runPipeline (fun _ => [[1, 2], [3, 4]]) (some (0, 0, 4, 4))
        [⟨0, "202401010000.jpg"⟩] [0] =
      ([⟨[[1, 2], [3, 4]], 0⟩], none) := by
  decide

/-- C3, amended: a crop rectangle exceeding the raster is silently clamped
by the slice semantics (the result is the intersection of the rectangle
with the raster), and the crop never raises: the pipeline's error outcome
with a crop configured is identical to the outcome without one. -/
theorem crop_out_of_bounds_silently_clamped (x0 y0 x1 y1 : Int)
    (img : List (List Nat)) (W : Nat)
    (hx0 : 0 ≤ x0) (hx01 : x0 ≤ x1) (hy0 : 0 ≤ y0) (hy01 : y0 ≤ y1)
    (hrect : ∀ row ∈ img, row.length = W) :
    (cropRaster (x0, y0, x1, y1) img).length = min y1.toNat img.length - y0.toNat ∧
    (∀ row ∈ cropRaster (x0, y0, x1, y1) img,
      row.length = min x1.toNat W - x0.toNat) ∧
    (∀ (imread : String → List (List Nat)) (idx : List TimestampedImage)
        (grid : List Int),
      (runPipeline imread (some (x0, y0, x1, y1)) idx grid).2 =
        (runPipeline imread none idx grid).2) := by
  have hcrop : cropRaster (x0, y0, x1, y1) img =
      (pySlice y0 y1 img).map (fun row => pySlice x0 x1 row) := rfl
  refine ⟨?_, ?_, ?_⟩
  · rw [hcrop, List.length_map]
    exact pySlice_length_clamped y0 y1 img hy0 hy01
  · intro row hrow
    rw [hcrop, List.mem_map] at hrow
    obtain ⟨r, hr, hrer⟩ := hrow
    have hrW : r.length = W := hrect r (pySlice_subset y0 y1 img r hr)
    rw [← hrer, pySlice_length_clamped x0 x1 r hx0 hx01, hrW]
  · intro imread idx grid
    exact runPipeline_error_of_bounds_free imread (x0, y0, x1, y1) idx grid

/-- C3, witness for the amended theorem: crop `(0, 0, 4, 4)` on a 2x2
raster keeps 2 of the requested 4 rows and 2 of the requested 4 columns. -/
theorem crop_out_of_bounds_silently_clamped_witness :
    (cropRaster (0, 0, 4, 4) [[1, 2], [3, 4]]).length =
      min (4 : Int).toNat ([[1, 2], [3, 4]] : List (List Nat)).length - (0 : Int).toNat ∧
    (∀ row ∈ cropRaster (0, 0, 4, 4) ([[1, 2], [3, 4]] : List (List Nat)),
      row.length = min (4 : Int).toNat 2 - (0 : Int).toNat) ∧
    (∀ (imread : String → List (List Nat)) (idx : List TimestampedImage)
        (grid : List Int),
      (runPipeline imread (some (0, 0, 4, 4)) idx grid).2 =
        (runPipeline imread none idx grid).2) :=
  crop_out_of_bounds_silently_clamped 0 0 4 4 [[1, 2], [3, 4]] 2 (by decide)
    (by decide) (by decide) (by decide) (by decide)

/-- C4: with an empty index every nearest lookup fails with the
empty-index error, and the pipeline on any non-empty grid emits no frame
and signals that error. -/
theorem empty_index_fails_every_lookup (imread : String → List (List Nat))
    (bounds : Option (Int × Int × Int × Int)) (grid : List Int) (t : Int)
    (hg : grid ≠ []) :
    get_loc_nearest ([] : List Int) t = .error .emptyIndex ∧
    runPipeline imread bounds [] grid = ([], some .emptyIndex) := by
  have h1 : ∀ s : Int, get_loc_nearest ([] : List Int) s = .error .emptyIndex := by
    intro s
    rw [get_loc_nearest, if_pos List.nodup_nil]
    rfl
  refine ⟨h1 t, ?_⟩
  cases grid with
  | nil => exact absurd rfl hg
  | cons s ss =>
    have hcf : composeFrame imread bounds ([] : List TimestampedImage) s =
        .error .emptyIndex :=
      composeFrame_of_error imread bounds [] s _ (h1 s)
    simp only [runPipeline, hcf]

/-- C4, witness. -/
theorem empty_index_fails_every_lookup_witness :
    get_loc_nearest ([] : List Int) 0 = .error .emptyIndex ∧
    runPipeline (fun _ => [[1]]) none [] [0] = ([], some .emptyIndex) :=
  empty_index_fails_every_lookup (fun _ => [[1]]) none [0] 0 (by decide)

/-- C5: for any list of discovered images, in any discovery order, the
built index is sorted non-decreasing by timestamp and contains exactly the
discovered records (the functional embedding rebuilds it fresh and no
operation mutates it afterwards). -/
theorem buildTimeIndex_sorted_and_permutation (discovered : List TimestampedImage) :
    List.Sorted (fun a b => a.ts ≤ b.ts) (buildTimeIndex discovered) ∧
    (buildTimeIndex discovered).Perm discovered :=
  ⟨List.sorted_insertionSort _ discovered, List.perm_insertionSort _ discovered⟩

/-- C6: whenever every lookup succeeds (strictly sorted, non-empty index),
the pipeline emits exactly one frame per grid point, in grid order: no
error, the frame list has the grid's length, and the `k`-th emitted frame
is labelled with the `k`-th grid timestamp. -/
theorem pipeline_one_frame_per_grid_point (imread : String → List (List Nat))
    (bounds : Option (Int × Int × Int × Int)) (idx : List TimestampedImage)
    (grid : List Int)
    (hs : List.Sorted (· < ·) (idx.map TimestampedImage.ts)) (hne : idx ≠ []) :
    ∃ fs : List Frame, runPipeline imread bounds idx grid = (fs, none) ∧
      fs.length = grid.length ∧
      ∀ k : Nat, k < grid.length → (fs.getD k default).label = grid.getD k 0 := by
  obtain ⟨h1, h2, h3⟩ := runPipeline_spec imread bounds idx hs hne grid
  refine ⟨(runPipeline imread bounds idx grid).1, ?_, h2, h3⟩
  rw [← h1]

/-- C6, witness. -/
theorem pipeline_one_frame_per_grid_point_witness :
    ∃ fs : List Frame,
      runPipeline (fun _ => [[1]]) none [⟨0, "202401010000.jpg"⟩] [0, 10] =
        (fs, none) ∧
      fs.length = ([0, 10] : List Int).length ∧
      ∀ k : Nat, k < ([0, 10] : List Int).length →
        (fs.getD k default).label = ([0, 10] : List Int).getD k 0 :=
  pipeline_one_frame_per_grid_point (fun _ => [[1]]) none [⟨0, "202401010000.jpg"⟩]
    [0, 10] (by decide) (by decide)

/-- C7: for `start ≤ stop` and a positive interval the grid starts at
`start`, is strictly increasing, ends at or before `stop`, contains `stop`
exactly when the interval divides the range, and degenerates to the
single point `[start]` when `start = stop`, in which case the pipeline
emits exactly one frame. -/
theorem sample_grid_properties (start stop freq : Int) (hle : start ≤ stop)
    (hf : 0 < freq) :
    (dateRange start stop freq).headD 0 = start ∧
    List.Sorted (· < ·) (dateRange start stop freq) ∧
    (dateRange start stop freq).getD ((dateRange start stop freq).length - 1) 0 ≤ stop ∧
    (stop ∈ dateRange start stop freq ↔ freq ∣ (stop - start)) ∧
    (start = stop → dateRange start stop freq = [start]) ∧
    (start = stop →
      ∀ (imread : String → List (List Nat)) (bounds : Option (Int × Int × Int × Int))
        (idx : List TimestampedImage),
        List.Sorted (· < ·) (idx.map TimestampedImage.ts) → idx ≠ [] →
        (runPipeline imread bounds idx (dateRange start stop freq)).1.length = 1) := by
  refine ⟨dateRange_headD start stop freq hf hle, dateRange_sorted start stop freq hf,
    dateRange_last_le start stop freq hf hle,
    dateRange_end_mem_iff start stop freq hf hle, ?_, ?_⟩
  · intro heq
    subst heq
    exact dateRange_self start freq hf
  · intro heq imread bounds idx hs hne
    subst heq
    obtain ⟨_, h2, _⟩ := runPipeline_spec imread bounds idx hs hne
      (dateRange start start freq)
    rw [h2, dateRange_self start freq hf]
    rfl

/-- C7, witness at `start = 0`, `stop = 10`, `freq = 5`. -/
theorem sample_grid_properties_witness :
    (dateRange 0 10 5).headD 0 = 0 ∧
    List.Sorted (· < ·) (dateRange 0 10 5) ∧
    (dateRange 0 10 5).getD ((dateRange 0 10 5).length - 1) 0 ≤ 10 ∧
    ((10 : Int) ∈ dateRange 0 10 5 ↔ (5 : Int) ∣ (10 - 0)) ∧
    ((0 : Int) = 10 → dateRange 0 10 5 = [0]) ∧
    ((0 : Int) = 10 →
      ∀ (imread : String → List (List Nat)) (bounds : Option (Int × Int × Int × Int))
        (idx : List TimestampedImage),
        List.Sorted (· < ·) (idx.map TimestampedImage.ts) → idx ≠ [] →
        (runPipeline imread bounds idx (dateRange 0 10 5)).1.length = 1) :=
  sample_grid_properties 0 10 5 (by decide) (by decide)

/-- C8: a crop rectangle fully contained in the raster extracts exactly
the sub-rectangle rows `y0:y1` and columns `x0:x1`: the result has height
`y1 - y0`, every row has width `x1 - x0`, and its `(i, j)` entry is the
source's `(y0 + i, x0 + j)` entry. -/
theorem crop_in_bounds_extracts_subrectangle (x0 y0 x1 y1 : Int)
    (img : List (List Nat)) (W : Nat)
    (hx0 : 0 ≤ x0) (hx01 : x0 ≤ x1) (hx1 : x1 ≤ (W : Int))
    (hy0 : 0 ≤ y0) (hy01 : y0 ≤ y1) (hy1 : y1 ≤ (img.length : Int))
    (hrect : ∀ row ∈ img, row.length = W) :
    (cropRaster (x0, y0, x1, y1) img).length = (y1 - y0).toNat ∧
    (∀ row ∈ cropRaster (x0, y0, x1, y1) img, row.length = (x1 - x0).toNat) ∧
    (∀ i j : Nat, i < (y1 - y0).toNat → j < (x1 - x0).toNat →
      ((cropRaster (x0, y0, x1, y1) img).getD i []).getD j 0 =
        (img.getD (y0.toNat + i) []).getD (x0.toNat + j) 0) := by
  have hcrop : cropRaster (x0, y0, x1, y1) img =
      (pySlice y0 y1 img).map (fun row => pySlice x0 x1 row) := rfl
  have hleny := pySlice_length y0 y1 img hy0 hy01 hy1
  refine ⟨?_, ?_, ?_⟩
  · rw [hcrop, List.length_map]
    exact hleny
  · intro row hrow
    rw [hcrop, List.mem_map] at hrow
    obtain ⟨r, hr, hrer⟩ := hrow
    have hrW : r.length = W := hrect r (pySlice_subset y0 y1 img r hr)
    rw [← hrer, pySlice_length x0 x1 r hx0 hx01 (by rw [hrW]; exact hx1)]
  · intro i j hi hj
    rw [hcrop]
    have hib : i < (pySlice y0 y1 img).length := by omega
    have hmap : ((pySlice y0 y1 img).map (fun row => pySlice x0 x1 row)).getD i [] =
        pySlice x0 x1 ((pySlice y0 y1 img).getD i []) := by
      rw [List.getD_eq_getElem _ _ (by rw [List.length_map]; omega),
        List.getElem_map]
      rw [List.getD_eq_getElem _ _ hib]
    rw [hmap]
    have hrmem : (pySlice y0 y1 img).getD i [] ∈ img :=
      pySlice_subset y0 y1 img _ (getD_mem_of_lt _ [] i hib)
    have hrowlen : ((pySlice y0 y1 img).getD i []).length = W := hrect _ hrmem
    rw [pySlice_getD x0 x1 _ 0 hx0 hx01 (by rw [hrowlen]; exact hx1) j hj]
    rw [pySlice_getD y0 y1 img [] hy0 hy01 hy1 i hi]

/-- C8, witness: bounds `(10, 20, 110, 220)` on a 240-row, 130-column
raster give a 200-row, 100-column cropped region. -/
theorem crop_in_bounds_extracts_subrectangle_witness :
    (cropRaster (10, 20, 110, 220)
        (List.replicate 240 (List.replicate 130 (0 : Nat)))).length =
      ((220 : Int) - 20).toNat ∧
    (∀ row ∈ cropRaster (10, 20, 110, 220)
        (List.replicate 240 (List.replicate 130 (0 : Nat))),
      row.length = ((110 : Int) - 10).toNat) ∧
    (∀ i j : Nat, i < ((220 : Int) - 20).toNat → j < ((110 : Int) - 10).toNat →
      ((cropRaster (10, 20, 110, 220)
          (List.replicate 240 (List.replicate 130 (0 : Nat)))).getD i []).getD j 0 =
        ((List.replicate 240 (List.replicate 130 (0 : Nat))).getD
            ((20 : Int).toNat + i) []).getD ((10 : Int).toNat + j) 0) :=
  crop_in_bounds_extracts_subrectangle 10 20 110 220
    (List.replicate 240 (List.replicate 130 0)) 130 (by decide) (by decide)
    (by decide) (by decide) (by decide)
    (by rw [List.length_replicate]; decide)
    (fun row hrow => by rw [List.eq_of_mem_replicate hrow]; rfl)

/-- C10: an index containing duplicate timestamps makes every nearest
lookup fail with the non-unique-index error, whatever the target, so
compositing fails for every grid point even when a unique closest entry
exists. -/
theorem duplicate_timestamps_make_lookup_fail (idx : List TimestampedImage)
    (imread : String → List (List Nat)) (bounds : Option (Int × Int × Int × Int))
    (t : Int) (hdup : ¬ (idx.map TimestampedImage.ts).Nodup) :
    get_loc_nearest (idx.map TimestampedImage.ts) t = .error .nonUniqueIndex ∧
    composeFrame imread bounds idx t = .error .nonUniqueIndex := by
  have h1 : get_loc_nearest (idx.map TimestampedImage.ts) t =
      .error .nonUniqueIndex := by
    rw [get_loc_nearest, if_neg hdup]
  exact ⟨h1, composeFrame_of_error imread bounds idx t _ h1⟩

/-- C10, witness: duplicate timestamp `0`, target `9`, whose unique
closest entry would be the one at `10`. -/
theorem duplicate_timestamps_make_lookup_fail_witness :
    get_loc_nearest
        (([⟨0, "a.jpg"⟩, ⟨0, "b.jpg"⟩, ⟨10, "c.jpg"⟩] :
          List TimestampedImage).map TimestampedImage.ts) 9 =
      .error .nonUniqueIndex ∧
    composeFrame (fun _ => [[1]]) none
        ([⟨0, "a.jpg"⟩, ⟨0, "b.jpg"⟩, ⟨10, "c.jpg"⟩] : List TimestampedImage) 9 =
      .error .nonUniqueIndex :=
  duplicate_timestamps_make_lookup_fail _ (fun _ => [[1]]) none 9 (by decide)

end RenderTimeSeries
